import Mathlib

/-
Verification development for the BinBank waste-management bot.

The definitions below are a shallow embedding of the Python sources
telegram_waste_bot.py and waste_management.py.  Database rows become
structures, SQL updates become list maps, SQLite REAL columns become
Option Rat (NULL = none), Python truthiness of a coordinate (None and
0.0 are both falsy) is modelled by truthyVal, and the external geopy
geodesic metric is an abstract parameter dist of the dispatcher
functions.  Per-user conversation context (context.user_data) becomes
explicit session values, and the state returned by a telegram handler
(a conversation state or ConversationHandler.END) becomes ConvState.
-/

/-- Conversation states of the telegram ConversationHandler, plus convEnd
for ConversationHandler.END (every handler return is one of these). -/
inductive ConvState
  | choosingRole
  | enterName
  | enterPhone
  | enterLocation
  | enterVerificationCode
  | enterWeight
  | enterRecyclingVerification
  | enterRecyclerName
  | enterWasteDescription
  | enterWallet
  | convEnd
deriving DecidableEq

/-- Row of the pickup_requests table (columns used by the claims). -/
structure PickupRequest where
  id : Nat
  creator_id : Nat
  collector_id : Option Nat
  status : String
deriving DecidableEq

/-- Row of the recycling_transactions table. created_at is a logical
timestamp: insertion order, strictly increasing. -/
structure RecyclingTransaction where
  id : Nat
  collector_id : Nat
  recycler_id : Nat
  weight_kg : Option Rat
  amount_paid : Option Rat
  verification_code : Option String
  status : String
  created_at : Nat
deriving DecidableEq

/-- Row of the users table as seen by the dispatcher queries:
telegram id plus its two REAL coordinate columns (NULL = none). -/
structure URow where
  uid : Nat
  lat : Option Rat
  lon : Option Rat
deriving DecidableEq

/-- Registered user as seen by the /start handler. -/
structure UserRec where
  telegram_id : Nat
  role : String
deriving DecidableEq

/-- Python truthiness of a coordinate value: None and 0.0 are falsy.
Returns the raw value when truthy, none otherwise. -/
def truthyVal : Option Rat → Option Rat
  | none => none
  | some x => if x = 0 then none else some x

/-- Whitespace characters removed by str.strip(). -/
def isSpaceChar (c : Char) : Bool :=
  c == ' ' || c == '\t' || c == '\n' || c == '\r'

/-- List-level strip: drop whitespace from both ends. -/
def stripList (l : List Char) : List Char :=
  ((l.dropWhile isSpaceChar).reverse.dropWhile isSpaceChar).reverse

/-- Python str.strip() as used on every inbound code message. -/
def pyStrip (s : String) : String :=
  ⟨stripList s.data⟩

/-- Python equality between a str and a value that may be None
(a string never equals None). -/
def pyEqOpt (s : String) : Option String → Bool
  | some t => s == t
  | none => false

/-- generate_verification_code: four decimal digits drawn from a random
source (modelled as a draw function index -> digit). -/
def generateVerificationCode (draw : Nat → Nat) : String :=
  ⟨(List.range 4).map (fun i => Char.ofNat (48 + draw i % 10))⟩

/-- Per-collector session slots set by complete_pickup
(context.user_data keys current_pickup and verification_code). -/
structure PickupSession where
  current_pickup : Option (Nat × Nat)
  verification_code : Option String
deriving DecidableEq

/-- Result classification of a code-entry handler. -/
inductive VerifyOutcome
  | noActiveFlow
  | completed
  | rejected
deriving DecidableEq

/-- complete_pickup handler: role gate, first assigned pickup of the
collector, code generation and storage in the session, then the
notification attempt to the creator (failure returns early, but only
after the session was already mutated). Returns the new session and the
conversation state the handler returns. -/
def completePickup (userRole : Option String) (assignedPickups : List (Nat × Nat))
    (newCode : String) (notifyOk : Bool) (sess : PickupSession) :
    PickupSession × ConvState :=
  match userRole with
  | some r =>
    if r = "Waste Collector" then
      match assignedPickups with
      | [] => (sess, ConvState.convEnd)
      | p :: _ =>
        let sess' : PickupSession := ⟨some p, some newCode⟩
        if notifyOk then (sess', ConvState.enterVerificationCode)
        else (sess', ConvState.convEnd)
    else (sess, ConvState.convEnd)
  | none => (sess, ConvState.convEnd)

/-- verify_pickup_code handler: strips the inbound message, compares it
with the stored session code, and on match marks the session's pickup
request completed; every branch returns ConversationHandler.END. -/
def verifyPickupCode (msg : String) (sess : PickupSession)
    (reqs : List PickupRequest) :
    VerifyOutcome × ConvState × List PickupRequest :=
  match sess.current_pickup, sess.verification_code with
  | some pinfo, some stored =>
    if pyStrip msg = stored then
      (VerifyOutcome.completed, ConvState.convEnd,
        reqs.map (fun r => if r.id = pinfo.1 then { r with status := "completed" } else r))
    else
      (VerifyOutcome.rejected, ConvState.convEnd, reqs)
  | _, _ => (VerifyOutcome.noActiveFlow, ConvState.convEnd, reqs)

/-- verify_recycling_code handler: the session holds
(transaction id, collector id, stored verification_code column, which
may be NULL).  The provided code is stripped and compared against the
stored value with Python equality (never equal to None); on match the
transaction is marked completed; every branch returns END. -/
def verifyRecyclingCode (msg : String) (txInfo : Option (Nat × Nat × Option String))
    (txns : List RecyclingTransaction) :
    VerifyOutcome × ConvState × List RecyclingTransaction :=
  match txInfo with
  | none => (VerifyOutcome.noActiveFlow, ConvState.convEnd, txns)
  | some (tid, _cid, stored) =>
    if pyEqOpt (pyStrip msg) stored then
      (VerifyOutcome.completed, ConvState.convEnd,
        txns.map (fun t => if t.id = tid then { t with status := "completed" } else t))
    else
      (VerifyOutcome.rejected, ConvState.convEnd, txns)

/-- The INSERT of process_recycler_name: a fresh recycling transaction
for (collector, recycler) with status pending and every other column
NULL -- in particular verification_code is NULL. -/
def processRecyclerName (collectorId recyclerId now nextId : Nat) :
    RecyclingTransaction :=
  ⟨nextId, collectorId, recyclerId, none, none, none, "pending", now⟩

/-- Keep the transaction with the strictly larger created_at
(ORDER BY created_at DESC LIMIT 1, folded over the filtered rows). -/
def pickLater (acc : Option RecyclingTransaction) (t : RecyclingTransaction) :
    Option RecyclingTransaction :=
  match acc with
  | none => some t
  | some b => if b.created_at < t.created_at then some t else some b

/-- The shared lookup of process_weight and verify_recycling:
SELECT ... FROM recycling_transactions WHERE recycler_id = ? AND
status = 'pending' ORDER BY created_at DESC LIMIT 1. -/
def latestPending (recyclerId : Nat) (txns : List RecyclingTransaction) :
    Option RecyclingTransaction :=
  (txns.filter (fun t => t.recycler_id == recyclerId && t.status == "pending")).foldl
    pickLater none

/-- The transaction process_weight targets: (id, collector_id) of the
recycler's latest pending transaction. -/
def processWeightTarget (recyclerId : Nat) (txns : List RecyclingTransaction) :
    Option (Nat × Nat) :=
  (latestPending recyclerId txns).map (fun t => (t.id, t.collector_id))

/-- The session triple verify_recycling stores:
(id, collector_id, verification_code) of the latest pending transaction. -/
def verifyRecyclingTarget (recyclerId : Nat) (txns : List RecyclingTransaction) :
    Option (Nat × Nat × Option String) :=
  (latestPending recyclerId txns).map (fun t => (t.id, t.collector_id, t.verification_code))

/-- /start handler: an already-registered telegram id short-circuits to
an informational reply and END; otherwise the registration flow begins. -/
def startHandler (uid : Nat) (users : List UserRec) : ConvState × List UserRec :=
  match users.find? (fun u => u.telegram_id == uid) with
  | some _ => (ConvState.convEnd, users)
  | none => (ConvState.choosingRole, users)

/-- location_entered: on a successful geocode the participant row is
inserted and the flow ends; otherwise it re-prompts in the same state. -/
def locationEntered (uid : Nat) (geocoded : Option (Rat × Rat)) (role : String)
    (users : List UserRec) : ConvState × List UserRec :=
  match geocoded with
  | some _ => (ConvState.convEnd, users ++ [⟨uid, role⟩])
  | none => (ConvState.enterLocation, users)

/-- Strict comparison of distance keys where none plays float('inf'):
this is how Python compares a computed distance with the current
minimum, and how min compares two key values. -/
def optLt : Option Rat → Option Rat → Bool
  | some _, none => true
  | some d, some e => decide (d < e)
  | none, _ => false

/-- The distance key used by both dispatchers for a collector row:
the geodesic distance when both coordinates are truthy (non-NULL and
non-zero), float('inf') (modelled as none) otherwise.  dist abstracts
the external geopy geodesic metric. -/
def pwdKey (dist : Rat → Rat → Rat → Rat → Rat) (ca cb : Rat) (c : URow) :
    Option Rat :=
  match truthyVal c.lat, truthyVal c.lon with
  | some a, some b => some (dist ca cb a b)
  | _, _ => none

/-- Python min over a non-empty list with a key function: keep the first
element, replace only on a strictly smaller key, so ties resolve to the
first-encountered candidate. -/
def minByKey (key : URow → Option Rat) : URow → List URow → URow
  | best, [] => best
  | best, c :: rest =>
    if optLt (key c) (key best) then minByKey key c rest
    else minByKey key best rest

/-- The loop of find_available_collector: skip candidates whose
coordinates are not both truthy, otherwise replace the running best on
a strictly smaller distance (min_distance starts at float('inf')). -/
def favLoop (dist : Rat → Rat → Rat → Rat → Rat) (ca cb : Rat) :
    List URow → Option Nat → Option Rat → Option Nat × Option Rat
  | [], best, bd => (best, bd)
  | c :: rest, best, bd =>
    match pwdKey dist ca cb c with
    | none => favLoop dist ca cb rest best bd
    | some d =>
      if optLt (some d) bd then favLoop dist ca cb rest (some c.uid) (some d)
      else favLoop dist ca cb rest best bd

/-- Result of find_available_collector: the creator-location error
tuple, the no-collector tuple (None, None), or (collector id, distance). -/
inductive FindResult
  | creatorLocationInvalid
  | noCollector
  | collector (cid : Nat) (dKm : Rat)
deriving DecidableEq

/-- find_available_collector: reject when the creator's row is missing
or either coordinate is falsy (not all(creator_location)), otherwise run
the skip-and-minimize loop over the online collectors. -/
def findAvailableCollector (dist : Rat → Rat → Rat → Rat → Rat)
    (creatorRow : Option (Option Rat × Option Rat)) (collectors : List URow) :
    FindResult :=
  match creatorRow with
  | none => FindResult.creatorLocationInvalid
  | some (la, lo) =>
    match truthyVal la, truthyVal lo with
    | some a, some b =>
      match favLoop dist a b collectors none none with
      | (some cid, some d) => FindResult.collector cid d
      | _ => FindResult.noCollector
    | _, _ => FindResult.creatorLocationInvalid

/-- The CLI caller of find_available_collector (main_menu choice 3):
assign the found collector to the fresh request, otherwise leave it
untouched.  The Bool records whether an assignment was made. -/
def cliDispatch (dist : Rat → Rat → Rat → Rat → Rat)
    (creatorRow : Option (Option Rat × Option Rat)) (collectors : List URow)
    (req : PickupRequest) : PickupRequest × Bool :=
  match findAvailableCollector dist creatorRow collectors with
  | FindResult.collector cid _ =>
    ({ req with collector_id := some cid, status := "assigned" }, true)
  | _ => (req, false)

/-- Outcome of the bot's process_waste_description: the persisted
request row and whether an assignment notification to a collector was
attempted. -/
structure PwdResult where
  request : PickupRequest
  notifiedCollector : Bool
deriving DecidableEq

/-- process_waste_description: insert the request, and when the online
collector list is non-empty and the creator row exists, assign the
min-by-key collector (invalid coordinates get key float('inf')) and
notify; otherwise leave the request pending.  A creator row in the bot
always carries numeric coordinates (registration inserts a successful
geocode), hence Option (Rat x Rat). -/
def processWasteDescription (dist : Rat → Rat → Rat → Rat → Rat)
    (uid rid : Nat) (collectors : List URow) (creatorRow : Option (Rat × Rat)) :
    PwdResult :=
  match collectors, creatorRow with
  | c :: cs, some (ca, cb) =>
    ⟨⟨rid, uid, some (minByKey (pwdKey dist ca cb) c cs).uid, "assigned"⟩, true⟩
  | _, _ => ⟨⟨rid, uid, none, "pending"⟩, false⟩

/-- A collector row whose two coordinates are both truthy. -/
def knownRow (x : URow) : Bool :=
  (truthyVal x.lat).isSome && (truthyVal x.lon).isSome

/-- The distance of a (valid) collector row from the creator. -/
def rowDist (dist : Rat → Rat → Rat → Rat → Rat) (ca cb : Rat) (x : URow) : Rat :=
  dist ca cb (x.lat.getD 0) (x.lon.getD 0)

/-- Concrete stand-in metric used to evaluate the dispatcher on sample
inputs (the real metric is the external geopy geodesic): the squared
euclidean distance of the numerators, computed over Int so that sample
runs evaluate by kernel reduction. -/
def sampleDist (a b x y : Rat) : Rat :=
  (((a.num - x.num) * (a.num - x.num) + (b.num - y.num) * (b.num - y.num) : Int) : Rat)

/-- Events of a handler run, in program order: an executed SQL mutation,
a notification attempt to the counterpart, a reply to the initiating
user, a transaction commit, a rollback. -/
inductive Ev
  | mutate
  | notify
  | reply
  | commitDb
  | rollbackDb
deriving DecidableEq

/-- Event trace of process_weight: UPDATE the transaction, attempt the
collector notification, and only then reply and commit; a failed
notification re-raises, so the except branch rolls the UPDATE back. -/
def processWeightTrace (collectorNotifyOk : Bool) : List Ev :=
  if collectorNotifyOk then
    [Ev.mutate, Ev.notify, Ev.reply, Ev.commitDb, Ev.reply]
  else
    [Ev.mutate, Ev.notify, Ev.rollbackDb, Ev.reply]

/-- Event trace of process_waste_description (assigned branch): INSERT,
UPDATE assign, reply to the creator, attempt the collector notification
(failure is caught and only logged), then commit -- identical whether
the notification succeeds or fails. -/
def processWasteDescriptionTrace (_collectorNotifyOk : Bool) : List Ev :=
  [Ev.mutate, Ev.mutate, Ev.reply, Ev.notify, Ev.commitDb]

/-- First index of an event in a trace. -/
def firstIdx (e : Ev) (t : List Ev) : Option Nat :=
  t.findIdx? (fun x => x == e)

/-- Some occurrence order: the first a strictly precedes the first b. -/
def occursBefore (a b : Ev) (t : List Ev) : Bool :=
  match firstIdx a t, firstIdx b t with
  | some i, some j => decide (i < j)
  | _, _ => false

/-- The pickup_requests table plus the AUTOINCREMENT counter. -/
structure PStore where
  reqs : List PickupRequest
  nextReqId : Nat
deriving DecidableEq

/-- UPDATE pickup_requests SET collector_id = cid, status = 'assigned'
WHERE id = n (assign_collector_to_request and the bot's assign UPDATE). -/
def assignUpd (n cid : Nat) (r : PickupRequest) : PickupRequest :=
  if r.id = n then { r with collector_id := some cid, status := "assigned" } else r

/-- UPDATE pickup_requests SET status = 'completed' WHERE id = rid
(the CLI complete_pickup and the bot's verify_pickup_code UPDATE). -/
def completeUpd (rid : Nat) (r : PickupRequest) : PickupRequest :=
  if r.id = rid then { r with status := "completed" } else r

/-- A request-creation step: INSERT a fresh pending request for creator
c, then, when the dispatcher found a collector, assign it to the fresh
request (CLI menu choice 3 and the bot's process_waste_description). -/
def applyDispatch (s : PStore) (c : Nat) (found : Option Nat) : PStore :=
  let fresh : PickupRequest := ⟨s.nextReqId, c, none, "pending"⟩
  match found with
  | none => ⟨s.reqs ++ [fresh], s.nextReqId + 1⟩
  | some cid =>
    ⟨List.map (assignUpd s.nextReqId cid) (s.reqs ++ [fresh]), s.nextReqId + 1⟩

/-- A completion step: mark the request with the given id completed
(CLI menu choice 6 takes any user-typed id; the bot's verify_pickup_code
passes the session's pickup id). -/
def applyComplete (s : PStore) (rid : Nat) : PStore :=
  ⟨s.reqs.map (completeUpd rid), s.nextReqId⟩

/-- The operations of the program that write pickup_requests. -/
inductive PStep : PStore → PStore → Prop
  | dispatch (s : PStore) (c : Nat) (found : Option Nat) :
      PStep s (applyDispatch s c found)
  | complete (s : PStore) (rid : Nat) :
      PStep s (applyComplete s rid)

/-- States of the pickup_requests table reachable from the fresh
database (setup_database deletes any existing file). -/
inductive PReach : PStore → Prop
  | init : PReach ⟨[], 1⟩
  | step {s s' : PStore} : PReach s → PStep s s' → PReach s'

/-- The per-row part of the claimed invariant that does hold. -/
def reqWellFormed (r : PickupRequest) : Prop :=
  (r.status = "assigned" → r.collector_id ≠ none) ∧
  (r.collector_id ≠ none → r.status = "assigned" ∨ r.status = "completed")

lemma dropWhile_eq_self_of {p : Char → Bool} {l : List Char}
    (h : ∀ c ∈ l, p c = false) : l.dropWhile p = l := by
  cases l with
  | nil => rfl
  | cons c t => rw [List.dropWhile_cons]; simp [h c (List.mem_cons_self c t)]

lemma digit_not_space {c : Char} (h : c.isDigit = true) : isSpaceChar c = false := by
  by_contra hs
  have hs' : isSpaceChar c = true := by
    cases hx : isSpaceChar c
    · exact absurd hx hs
    · rfl
  have hd : ((c = ' ' ∨ c = '\t') ∨ c = '\n') ∨ c = '\r' := by
    simpa [isSpaceChar] using hs'
  rcases hd with ((rfl | rfl) | rfl) | rfl <;> exact absurd h (by decide)

lemma stripList_digits {l : List Char} (h : ∀ c ∈ l, c.isDigit = true) :
    stripList l = l := by
  have h1 : ∀ c ∈ l, isSpaceChar c = false := fun c hc => digit_not_space (h c hc)
  unfold stripList
  rw [dropWhile_eq_self_of h1]
  rw [dropWhile_eq_self_of (fun c hc => h1 c (List.mem_reverse.mp hc))]
  exact List.reverse_reverse l

lemma pyStrip_digits {s : String} (h : ∀ c ∈ s.data, c.isDigit = true) :
    pyStrip s = s := by
  cases s with
  | mk d =>
    show String.mk (stripList d) = String.mk d
    rw [stripList_digits h]

/-- Claim C1: the spec says a mismatched verification code is rejected and
re-prompted in the same code-entry state, so the same party can retry
without restarting the flow.  The code is a slip here: both handlers
reply that the user should try again but return ConversationHandler.END,
so on the failing input below the next message is no longer routed to
the verification handler; the entity is left unchanged and the flow must
be restarted.  The theorem evaluates both handlers at a mismatched code
and shows the returned state is convEnd, not the code-entry state. -/
theorem C1_mismatch_ends_conversation :
    (verifyPickupCode ("1234") ⟨some (11, 22), some ("4821")⟩
        [⟨11, 22, some 77, "assigned"⟩]).1 = VerifyOutcome.rejected ∧
    (verifyPickupCode ("1234") ⟨some (11, 22), some ("4821")⟩
        [⟨11, 22, some 77, "assigned"⟩]).2.1 = ConvState.convEnd ∧
    (verifyPickupCode ("1234") ⟨some (11, 22), some ("4821")⟩
        [⟨11, 22, some 77, "assigned"⟩]).2.2 = [⟨11, 22, some 77, "assigned"⟩] ∧
    (verifyRecyclingCode ("1234") (some (3, 44, some ("4821")))
        [⟨3, 44, 55, some 10, some 10, some ("4821"), "pending", 1⟩]).1 =
      VerifyOutcome.rejected ∧
    (verifyRecyclingCode ("1234") (some (3, 44, some ("4821")))
        [⟨3, 44, 55, some 10, some 10, some ("4821"), "pending", 1⟩]).2.1 =
      ConvState.convEnd ∧
    (verifyRecyclingCode ("1234") (some (3, 44, some ("4821")))
        [⟨3, 44, 55, some 10, some 10, some ("4821"), "pending", 1⟩]).2.2 =
      [⟨3, 44, 55, some 10, some 10, some ("4821"), "pending", 1⟩] ∧
    decide (ConvState.convEnd = ConvState.enterVerificationCode) = false ∧
    decide (ConvState.convEnd = ConvState.enterRecyclingVerification) = false := by
  decide

/-- Claim C10: a recycling transaction freshly created by
process_recycler_name stores a NULL verification code, verify_recycling
hands exactly that NULL code to the session, and verify_recycling_code
then rejects every candidate string (a str never equals None), leaving
the transaction list unchanged -- so nothing can complete a recycling
transaction before a weight has been recorded. -/
theorem C10_no_code_before_weight (msg : String) (cid rid now nid : Nat)
    (l2 : List RecyclingTransaction) :
    (processRecyclerName cid rid now nid).verification_code = none ∧
    verifyRecyclingTarget rid [processRecyclerName cid rid now nid] =
      some (nid, cid, none) ∧
    (verifyRecyclingCode msg (some (nid, cid, none)) l2).1 = VerifyOutcome.rejected ∧
    (verifyRecyclingCode msg (some (nid, cid, none)) l2).2.1 = ConvState.convEnd ∧
    (verifyRecyclingCode msg (some (nid, cid, none)) l2).2.2 = l2 := by
  refine ⟨rfl, ?_, rfl, rfl, rfl⟩
  simp [verifyRecyclingTarget, latestPending, pickLater, processRecyclerName]

/-- Claim C5: for a pickup flow instance, verification succeeds iff the
(well-formed, digit-only) candidate equals the most-recently-issued
code: running complete_pickup twice stores the second code in the
session slot (overwriting the first), verify_pickup_code accepts a
candidate iff it equals that second code, and the first code -- when
different -- is rejected. -/
theorem C5_latest_code_verifies (sess : PickupSession) (p : Nat × Nat)
    (rest : List (Nat × Nat)) (c1 c2 msg : String) (reqs : List PickupRequest)
    (hmsg : ∀ ch ∈ msg.data, ch.isDigit = true)
    (hc1 : ∀ ch ∈ c1.data, ch.isDigit = true)
    (hne : c1 ≠ c2) :
    ((completePickup (some ("Waste Collector")) (p :: rest) c2 true
        (completePickup (some ("Waste Collector")) (p :: rest) c1 true sess).1).1).verification_code
      = some c2 ∧
    ((verifyPickupCode msg
        (completePickup (some ("Waste Collector")) (p :: rest) c2 true
          (completePickup (some ("Waste Collector")) (p :: rest) c1 true sess).1).1
        reqs).1 = VerifyOutcome.completed ↔ msg = c2) ∧
    (verifyPickupCode c1
        (completePickup (some ("Waste Collector")) (p :: rest) c2 true
          (completePickup (some ("Waste Collector")) (p :: rest) c1 true sess).1).1
        reqs).1 = VerifyOutcome.rejected := by
  have hs2 : (completePickup (some ("Waste Collector")) (p :: rest) c2 true
      (completePickup (some ("Waste Collector")) (p :: rest) c1 true sess).1).1
      = ⟨some p, some c2⟩ := rfl
  rw [hs2]
  refine ⟨rfl, ?_, ?_⟩
  · constructor
    · intro h
      by_cases hm : pyStrip msg = c2
      · rw [← pyStrip_digits hmsg]
        exact hm
      · exfalso
        have hr : (verifyPickupCode msg ⟨some p, some c2⟩ reqs).1 =
            VerifyOutcome.rejected := by
          simp [verifyPickupCode, hm]
        rw [hr] at h
        exact absurd h (by decide)
    · intro h
      subst h
      simp [verifyPickupCode, pyStrip_digits hmsg]
  · have hm : pyStrip c1 ≠ c2 := by
      rw [pyStrip_digits hc1]
      exact hne
    simp [verifyPickupCode, hm]

theorem C5_witness :
    ((completePickup (some ("Waste Collector")) [(11, 22)] ("4821") true
        (completePickup (some ("Waste Collector")) [(11, 22)] ("1111") true
          ⟨none, none⟩).1).1).verification_code = some ("4821") ∧
    (verifyPickupCode ("4821")
        (completePickup (some ("Waste Collector")) [(11, 22)] ("4821") true
          (completePickup (some ("Waste Collector")) [(11, 22)] ("1111") true
            ⟨none, none⟩).1).1
        [⟨11, 22, some 77, "assigned"⟩]).1 = VerifyOutcome.completed := by
  have h := C5_latest_code_verifies ⟨none, none⟩ (11, 22) [] ("1111") ("4821") ("4821")
    [⟨11, 22, some 77, "assigned"⟩] (by decide) (by decide) (by decide)
  exact ⟨h.1, h.2.1.mpr rfl⟩

/-- Claim C2 (counterexample): in process_waste_description the commit
never precedes the dependent collector notification attempt (the
notification comes first, the commit last), and in process_weight a
notification failure does not leave committed state unchanged -- it
rolls the mutation back and nothing is committed at all. -/
theorem C2_counterexample :
    processWasteDescriptionTrace true =
      [Ev.mutate, Ev.mutate, Ev.reply, Ev.notify, Ev.commitDb] ∧
    occursBefore Ev.commitDb Ev.notify (processWasteDescriptionTrace true) = false ∧
    occursBefore Ev.notify Ev.commitDb (processWasteDescriptionTrace true) = true ∧
    occursBefore Ev.commitDb Ev.notify (processWeightTrace true) = false ∧
    (processWeightTrace false).contains Ev.rollbackDb = true ∧
    (processWeightTrace false).contains Ev.commitDb = false := by
  decide

/-- Claim C2 (amended): in both handlers the SQL mutation is executed
before the dependent notification attempt, but the transaction commit
happens after the notification attempt, not before.  In
process_waste_description the trace is the same whether the collector
notification succeeds or fails and the commit still happens (failure is
non-fatal), while in process_weight a notification failure triggers a
rollback that discards the uncommitted mutation. -/
theorem C2_amended (ok : Bool) :
    occursBefore Ev.mutate Ev.notify (processWeightTrace ok) = true ∧
    occursBefore Ev.mutate Ev.notify (processWasteDescriptionTrace ok) = true ∧
    occursBefore Ev.notify Ev.commitDb (processWasteDescriptionTrace ok) = true ∧
    (processWasteDescriptionTrace ok).contains Ev.commitDb = true ∧
    processWasteDescriptionTrace ok = processWasteDescriptionTrace true ∧
    occursBefore Ev.notify Ev.commitDb (processWeightTrace true) = true ∧
    (processWeightTrace false).contains Ev.commitDb = false ∧
    (processWeightTrace false).contains Ev.rollbackDb = true := by
  cases ok <;> decide

/-- Claim C7: when the telegram id is already present in the users
table, /start returns ConversationHandler.END with the directory
unchanged -- the registration flow (CHOOSING_ROLE) is never entered and
the number of records for that id is unchanged, so no second
Participant record is inserted. -/
theorem C7_reregistration_short_circuits (uid : Nat) (users : List UserRec)
    (h : (users.find? (fun u => u.telegram_id == uid)).isSome = true) :
    startHandler uid users = (ConvState.convEnd, users) ∧
    List.countP (fun u => u.telegram_id == uid) (startHandler uid users).2 =
      List.countP (fun u => u.telegram_id == uid) users := by
  obtain ⟨u, hu⟩ := Option.isSome_iff_exists.mp h
  have key : startHandler uid users = (ConvState.convEnd, users) := by
    unfold startHandler
    rw [hu]
  exact ⟨key, by rw [key]⟩

theorem C7_witness :
    startHandler 5 [⟨5, "Waste Creator"⟩] =
      (ConvState.convEnd, ([⟨5, "Waste Creator"⟩] : List UserRec)) ∧
    List.countP (fun u => u.telegram_id == 5)
        (startHandler 5 [⟨5, "Waste Creator"⟩]).2 =
      List.countP (fun u => u.telegram_id == 5)
        ([⟨5, "Waste Creator"⟩] : List UserRec) :=
  C7_reregistration_short_circuits 5 [⟨5, "Waste Creator"⟩] (by decide)

lemma pickLater_some (l : List RecyclingTransaction) :
    ∀ b : RecyclingTransaction,
      ∃ t, List.foldl pickLater (some b) l = some t ∧ (t = b ∨ t ∈ l) ∧
        b.created_at ≤ t.created_at ∧ ∀ u ∈ l, u.created_at ≤ t.created_at := by
  induction l with
  | nil =>
    intro b
    exact ⟨b, rfl, Or.inl rfl, le_refl _, by simp⟩
  | cons c rest ih =>
    intro b
    by_cases h : b.created_at < c.created_at
    · obtain ⟨t, hfold, hmem, hle, hall⟩ := ih c
      refine ⟨t, ?_, ?_, ?_, ?_⟩
      · simpa [pickLater, h] using hfold
      · rcases hmem with rfl | hm
        · exact Or.inr (List.mem_cons_self _ _)
        · exact Or.inr (List.mem_cons_of_mem _ hm)
      · exact le_trans (le_of_lt h) hle
      · intro u hu
        rcases List.mem_cons.mp hu with rfl | hm
        · exact hle
        · exact hall u hm
    · obtain ⟨t, hfold, hmem, hle, hall⟩ := ih b
      refine ⟨t, ?_, ?_, ?_, ?_⟩
      · simpa [pickLater, h] using hfold
      · rcases hmem with rfl | hm
        · exact Or.inl rfl
        · exact Or.inr (List.mem_cons_of_mem _ hm)
      · exact hle
      · intro u hu
        rcases List.mem_cons.mp hu with rfl | hm
        · exact le_trans (Nat.le_of_not_lt h) hle
        · exact hall u hm

lemma latestPending_spec {rid : Nat} {txns : List RecyclingTransaction}
    {t : RecyclingTransaction} (h : latestPending rid txns = some t) :
    t ∈ txns ∧ t.status = "pending" ∧ t.recycler_id = rid ∧
      ∀ u ∈ txns, u.status = "pending" → u.recycler_id = rid →
        u.created_at ≤ t.created_at := by
  unfold latestPending at h
  cases hF : txns.filter (fun x => x.recycler_id == rid && x.status == "pending") with
  | nil =>
    rw [hF] at h
    simp at h
  | cons c rest =>
    rw [hF] at h
    rw [List.foldl_cons] at h
    have hc : pickLater none c = some c := rfl
    rw [hc] at h
    obtain ⟨t', hfold, hmem, hle, hall⟩ := pickLater_some rest c
    rw [hfold] at h
    injection h with h
    subst h
    have htF : t' ∈ c :: rest := by
      rcases hmem with rfl | hm
      · exact List.mem_cons_self _ _
      · exact List.mem_cons_of_mem _ hm
    rw [← hF] at htF
    obtain ⟨htx, hpred⟩ := List.mem_filter.mp htF
    simp only [Bool.and_eq_true, beq_iff_eq] at hpred
    refine ⟨htx, hpred.2, hpred.1, ?_⟩
    intro u hu hstat hrid
    have huF : u ∈ txns.filter (fun x => x.recycler_id == rid && x.status == "pending") :=
      List.mem_filter.mpr ⟨hu, by simp [hstat, hrid]⟩
    rw [hF] at huF
    rcases List.mem_cons.mp huF with rfl | hm
    · exact hle
    · exact hall u hm

/-- Claim C8 (amended): the lookup shared by process_weight and
verify_recycling is keyed by the recycler only, not by the (collector,
recycler) pair: it targets the single most-recently-created pending
transaction whose recycler_id matches, whatever its collector is.  This
coincides with the pair's most-recent pending transaction only when the
recycler's latest pending transaction belongs to that collector. -/
theorem C8_recycler_latest_pending (rid : Nat) (txns : List RecyclingTransaction)
    (t : RecyclingTransaction) (h : latestPending rid txns = some t) :
    t ∈ txns ∧ t.status = "pending" ∧ t.recycler_id = rid ∧
    processWeightTarget rid txns = some (t.id, t.collector_id) ∧
    verifyRecyclingTarget rid txns = some (t.id, t.collector_id, t.verification_code) ∧
    ∀ u ∈ txns, u.status = "pending" → u.recycler_id = rid →
      u.created_at ≤ t.created_at := by
  obtain ⟨h1, h2, h3, h4⟩ := latestPending_spec h
  exact ⟨h1, h2, h3, by simp [processWeightTarget, h],
    by simp [verifyRecyclingTarget, h], h4⟩

/-- Claim C8 (counterexample): with two pending transactions for
recycler 99 from different collectors, the weight-recording step for
recycler 99 targets transaction 2 of collector 20, not the pending
transaction of the pair (collector 10, recycler 99) -- so the steps do
not target the most-recent pending transaction of every (collector,
recycler) pair. -/
theorem C8_counterexample :
    latestPending 99 [⟨1, 10, 99, none, none, none, "pending", 1⟩,
        ⟨2, 20, 99, none, none, none, "pending", 2⟩] =
      some ⟨2, 20, 99, none, none, none, "pending", 2⟩ ∧
    processWeightTarget 99 [⟨1, 10, 99, none, none, none, "pending", 1⟩,
        ⟨2, 20, 99, none, none, none, "pending", 2⟩] = some (2, 20) ∧
    decide ((20 : Nat) = 10) = false ∧
    (⟨1, 10, 99, none, none, none, "pending", 1⟩ : RecyclingTransaction).collector_id = 10 ∧
    (⟨1, 10, 99, none, none, none, "pending", 1⟩ : RecyclingTransaction).recycler_id = 99 ∧
    (⟨1, 10, 99, none, none, none, "pending", 1⟩ : RecyclingTransaction).status = "pending" := by
  decide

theorem C8_witness :
    (⟨2, 20, 99, none, none, none, "pending", 2⟩ : RecyclingTransaction) ∈
      [⟨1, 10, 99, none, none, none, "pending", 1⟩,
        (⟨2, 20, 99, none, none, none, "pending", 2⟩ : RecyclingTransaction)] ∧
    (⟨2, 20, 99, none, none, none, "pending", 2⟩ : RecyclingTransaction).status =
      "pending" ∧
    (1 : Nat) ≤ 2 := by
  have h := C8_recycler_latest_pending 99
    [⟨1, 10, 99, none, none, none, "pending", 1⟩,
      ⟨2, 20, 99, none, none, none, "pending", 2⟩]
    ⟨2, 20, 99, none, none, none, "pending", 2⟩ (by decide)
  exact ⟨h.1, h.2.1,
    h.2.2.2.2.2 ⟨1, 10, 99, none, none, none, "pending", 1⟩ (by decide) rfl rfl⟩

lemma truthyVal_zero : truthyVal (some (0 : Rat)) = none := by
  simp [truthyVal]

lemma truthyVal_nonzero {a : Rat} (ha : a ≠ 0) : truthyVal (some a) = some a := by
  simp [truthyVal, ha]

lemma truthyVal_some {o : Option Rat} {a : Rat} (h : truthyVal o = some a) :
    o = some a := by
  cases o with
  | none => simp [truthyVal] at h
  | some x =>
    unfold truthyVal at h
    by_cases hx : x = 0
    · simp [hx] at h
    · simp [hx] at h
      rw [h]

lemma pwdKey_invalid (dist : Rat → Rat → Rat → Rat → Rat) (ca cb : Rat) {c : URow}
    (hc : truthyVal c.lat = none ∨ truthyVal c.lon = none) :
    pwdKey dist ca cb c = none := by
  unfold pwdKey
  rcases hc with h | h
  · cases h2 : truthyVal c.lon <;> rw [h]
  · cases h1 : truthyVal c.lat <;> rw [h]

lemma pwdKey_zero (dist : Rat → Rat → Rat → Rat → Rat) (ca cb : Rat) {c : URow}
    (hc : c.lat = some 0 ∨ c.lon = some 0) :
    pwdKey dist ca cb c = none := by
  apply pwdKey_invalid
  rcases hc with h | h
  · left
    rw [h]
    exact truthyVal_zero
  · right
    rw [h]
    exact truthyVal_zero

lemma knownRow_some {c : URow} (hc : knownRow c = true) :
    ∃ a b : Rat, truthyVal c.lat = some a ∧ truthyVal c.lon = some b := by
  unfold knownRow at hc
  simp only [Bool.and_eq_true, Option.isSome_iff_exists] at hc
  obtain ⟨⟨a, ha⟩, b, hb⟩ := hc
  exact ⟨a, b, ha, hb⟩

lemma pwdKey_known (dist : Rat → Rat → Rat → Rat → Rat) (ca cb : Rat) {c : URow}
    (hc : knownRow c = true) :
    pwdKey dist ca cb c = some (rowDist dist ca cb c) := by
  obtain ⟨a, b, ha, hb⟩ := knownRow_some hc
  have hla : c.lat = some a := truthyVal_some ha
  have hlb : c.lon = some b := truthyVal_some hb
  unfold pwdKey rowDist
  rw [ha, hb, hla, hlb]
  rfl

lemma favLoop_skip_all (dist : Rat → Rat → Rat → Rat → Rat) (ca cb : Rat)
    {l : List URow} (h : ∀ x ∈ l, pwdKey dist ca cb x = none)
    (best : Option Nat) (bd : Option Rat) :
    favLoop dist ca cb l best bd = (best, bd) := by
  induction l with
  | nil => rfl
  | cons c rest ih =>
    have hc := h c (List.mem_cons_self _ _)
    simp only [favLoop]
    rw [hc]
    exact ih (fun x hx => h x (List.mem_cons_of_mem _ hx))

lemma minByKey_none_keys {key : URow → Option Rat} {l : List URow}
    (h : ∀ x ∈ l, key x = none) (best : URow) :
    minByKey key best l = best := by
  induction l generalizing best with
  | nil => rfl
  | cons c rest ih =>
    have hc := h c (List.mem_cons_self _ _)
    simp only [minByKey]
    rw [hc]
    have hlt : optLt none (key best) = false := by
      cases key best <;> rfl
    rw [hlt]
    simp only [Bool.false_eq_true, if_false]
    exact ih (fun x hx => h x (List.mem_cons_of_mem _ hx)) best

/-- Claim C9: a stored coordinate equal to 0.0 is falsy in Python, so the
code treats it as unknown: a requester row with latitude or longitude 0
makes find_available_collector return the creator-location-invalid
result, and a collector row with a zero coordinate gets distance key
float('inf') in the bot and is skipped outright by the CLI loop. -/
theorem C9_zero_coordinate_unknown (dist : Rat → Rat → Rat → Rat → Rat)
    (x y ca cb : Rat) (collectors rest : List URow) (c : URow)
    (best : Option Nat) (bd : Option Rat)
    (hc : c.lat = some 0 ∨ c.lon = some 0) :
    findAvailableCollector dist (some (some 0, some y)) collectors =
      FindResult.creatorLocationInvalid ∧
    findAvailableCollector dist (some (some x, some 0)) collectors =
      FindResult.creatorLocationInvalid ∧
    pwdKey dist ca cb c = none ∧
    favLoop dist ca cb (c :: rest) best bd = favLoop dist ca cb rest best bd := by
  refine ⟨?_, ?_, pwdKey_zero dist ca cb hc, ?_⟩
  · cases h2 : truthyVal (some y) <;>
      simp [findAvailableCollector, truthyVal_zero, h2]
  · cases h1 : truthyVal (some x) <;>
      simp [findAvailableCollector, truthyVal_zero, h1]
  · simp only [favLoop]
    rw [pwdKey_zero dist ca cb hc]

theorem C9_witness :
    findAvailableCollector sampleDist (some (some 0, some 3)) [⟨8, some 1, some 1⟩] =
      FindResult.creatorLocationInvalid ∧
    findAvailableCollector sampleDist (some (some 2, some 0)) [⟨8, some 1, some 1⟩] =
      FindResult.creatorLocationInvalid ∧
    pwdKey sampleDist 6 3 ⟨7, some 0, some 5⟩ = none ∧
    favLoop sampleDist 6 3 [⟨7, some 0, some 5⟩, ⟨8, some 1, some 1⟩] none none =
      favLoop sampleDist 6 3 [⟨8, some 1, some 1⟩] none none :=
  C9_zero_coordinate_unknown sampleDist 2 3 6 3 [⟨8, some 1, some 1⟩]
    [⟨8, some 1, some 1⟩] ⟨7, some 0, some 5⟩ none none (Or.inl rfl)

/-- Claim C3 (amended): in the CLI module the claim holds in full -- a
missing creator row, a falsy creator coordinate, or an online collector
set with no valid coordinates all make find_available_collector report
no collector, and the caller then leaves the request untouched (pending,
collector_id null, nothing assigned).  The bot's
process_waste_description also leaves the request pending with no
notification when the online collector set is empty or the creator row
is missing, BUT when online collectors exist and none of them has valid
coordinates it still assigns the first collector in iteration order
(every key is float('inf'), and Python min returns the first element)
and attempts the assignment notification. -/
theorem C3_no_collector_dispatch (dist : Rat → Rat → Rat → Rat → Rat)
    (la lo : Option Rat) (ca cb : Rat) (collectors rest : List URow) (c : URow)
    (req : PickupRequest) (uid rid : Nat)
    (hco : truthyVal la = none ∨ truthyVal lo = none)
    (hca : ca ≠ 0) (hcb : cb ≠ 0)
    (hall : ∀ x ∈ c :: rest, truthyVal x.lat = none ∨ truthyVal x.lon = none) :
    findAvailableCollector dist none collectors = FindResult.creatorLocationInvalid ∧
    findAvailableCollector dist (some (la, lo)) collectors =
      FindResult.creatorLocationInvalid ∧
    findAvailableCollector dist (some (some ca, some cb)) (c :: rest) =
      FindResult.noCollector ∧
    cliDispatch dist none collectors req = (req, false) ∧
    cliDispatch dist (some (la, lo)) collectors req = (req, false) ∧
    cliDispatch dist (some (some ca, some cb)) (c :: rest) req = (req, false) ∧
    processWasteDescription dist uid rid [] (some (ca, cb)) =
      ⟨⟨rid, uid, none, "pending"⟩, false⟩ ∧
    processWasteDescription dist uid rid collectors none =
      ⟨⟨rid, uid, none, "pending"⟩, false⟩ ∧
    processWasteDescription dist uid rid (c :: rest) (some (ca, cb)) =
      ⟨⟨rid, uid, some c.uid, "assigned"⟩, true⟩ := by
  have h2 : findAvailableCollector dist (some (la, lo)) collectors =
      FindResult.creatorLocationInvalid := by
    rcases hco with h | h
    · cases h2 : truthyVal lo <;> simp [findAvailableCollector, h, h2]
    · cases h1 : truthyVal la <;> simp [findAvailableCollector, h1, h]
  have h3 : findAvailableCollector dist (some (some ca, some cb)) (c :: rest) =
      FindResult.noCollector := by
    have hskip : favLoop dist ca cb (c :: rest) none none = (none, none) :=
      favLoop_skip_all dist ca cb
        (fun x hx => pwdKey_invalid dist ca cb (hall x hx)) none none
    simp [findAvailableCollector, truthyVal_nonzero hca, truthyVal_nonzero hcb, hskip]
  refine ⟨rfl, h2, h3, rfl, ?_, ?_, rfl, ?_, ?_⟩
  · simp [cliDispatch, h2]
  · simp [cliDispatch, h3]
  · cases collectors <;> rfl
  · have hmin : minByKey (pwdKey dist ca cb) c rest = c :=
      minByKey_none_keys
        (fun x hx => pwdKey_invalid dist ca cb
          (hall x (List.mem_cons_of_mem _ hx))) c
    simp [processWasteDescription, hmin]

/-- Claim C3 (counterexample): one online collector whose stored
coordinates are (0.0, 0.0) -- falsy, hence treated as unknown -- and a
requester with known coordinates: the claim says the request stays
pending with no assignment notification, but the bot assigns that
collector and attempts the notification. -/
theorem C3_counterexample :
    processWasteDescription sampleDist 9 5 [⟨7, some 0, some 0⟩] (some (6, 3)) =
      ⟨⟨5, 9, some 7, "assigned"⟩, true⟩ := by
  decide

theorem C3_witness :
    findAvailableCollector sampleDist none [⟨7, some 0, some 0⟩] =
      FindResult.creatorLocationInvalid ∧
    findAvailableCollector sampleDist (some (some 0, some 3)) [⟨7, some 0, some 0⟩] =
      FindResult.creatorLocationInvalid ∧
    findAvailableCollector sampleDist (some (some 6, some 3)) [⟨7, some 0, some 0⟩] =
      FindResult.noCollector ∧
    cliDispatch sampleDist none [⟨7, some 0, some 0⟩] ⟨5, 9, none, "pending"⟩ =
      (⟨5, 9, none, "pending"⟩, false) ∧
    cliDispatch sampleDist (some (some 0, some 3)) [⟨7, some 0, some 0⟩]
        ⟨5, 9, none, "pending"⟩ = (⟨5, 9, none, "pending"⟩, false) ∧
    cliDispatch sampleDist (some (some 6, some 3)) [⟨7, some 0, some 0⟩]
        ⟨5, 9, none, "pending"⟩ = (⟨5, 9, none, "pending"⟩, false) ∧
    processWasteDescription sampleDist 9 5 [] (some (6, 3)) =
      ⟨⟨5, 9, none, "pending"⟩, false⟩ ∧
    processWasteDescription sampleDist 9 5 [⟨7, some 0, some 0⟩] none =
      ⟨⟨5, 9, none, "pending"⟩, false⟩ ∧
    processWasteDescription sampleDist 9 5 [⟨7, some 0, some 0⟩] (some (6, 3)) =
      ⟨⟨5, 9, some 7, "assigned"⟩, true⟩ :=
  C3_no_collector_dispatch sampleDist (some 0) (some 3) 6 3 [⟨7, some 0, some 0⟩] []
    ⟨7, some 0, some 0⟩ ⟨5, 9, none, "pending"⟩ 9 5 (Or.inl (by decide))
    (by decide) (by decide) (by decide)

lemma minByKey_spec (key : URow → Option Rat) (f : URow → Rat) :
    ∀ (l : List URow) (best : URow), (∀ x ∈ best :: l, key x = some (f x)) →
      minByKey key best l ∈ best :: l ∧
      (∀ x ∈ best :: l, f (minByKey key best l) ≤ f x) ∧
      (best :: l).find? (fun x => decide (f x ≤ f (minByKey key best l))) =
        some (minByKey key best l) := by
  intro l
  induction l with
  | nil =>
    intro best _
    simp only [minByKey]
    refine ⟨List.mem_cons_self _ _, ?_, ?_⟩
    · intro x hx
      rcases List.mem_cons.mp hx with rfl | hx
      · exact le_refl _
      · simp at hx
    · exact List.find?_cons_of_pos _ (by simp)
  | cons c rest ih =>
    intro best hk
    have hkb : key best = some (f best) := hk best (List.mem_cons_self _ _)
    have hkc : key c = some (f c) :=
      hk c (List.mem_cons_of_mem _ (List.mem_cons_self _ _))
    by_cases h : f c < f best
    · have hcond : optLt (key c) (key best) = true := by
        rw [hkb, hkc]
        simp [optLt, h]
      have hmb : minByKey key best (c :: rest) = minByKey key c rest := by
        simp only [minByKey]
        rw [hcond]
        simp
      obtain ⟨ihmem, ihmin, ihfind⟩ := ih c (fun x hx => hk x (by
        rcases List.mem_cons.mp hx with rfl | hx
        · exact List.mem_cons_of_mem _ (List.mem_cons_self _ _)
        · exact List.mem_cons_of_mem _ (List.mem_cons_of_mem _ hx)))
      rw [hmb]
      have hmc : f (minByKey key c rest) ≤ f c := ihmin c (List.mem_cons_self _ _)
      refine ⟨List.mem_cons_of_mem _ ihmem, ?_, ?_⟩
      · intro x hx
        rcases List.mem_cons.mp hx with rfl | hx
        · exact le_trans hmc (le_of_lt h)
        · exact ihmin x hx
      · have hnb : ¬ (f best ≤ f (minByKey key c rest)) :=
          not_le.mpr (lt_of_le_of_lt hmc h)
        rw [List.find?_cons_of_neg _ (by simpa using hnb)]
        exact ihfind
    · have hcond : optLt (key c) (key best) = false := by
        rw [hkb, hkc]
        simp [optLt, h]
      have hmb : minByKey key best (c :: rest) = minByKey key best rest := by
        simp only [minByKey]
        rw [hcond]
        simp
      obtain ⟨ihmem, ihmin, ihfind⟩ := ih best (fun x hx => hk x (by
        rcases List.mem_cons.mp hx with rfl | hx
        · exact List.mem_cons_self _ _
        · exact List.mem_cons_of_mem _ (List.mem_cons_of_mem _ hx)))
      rw [hmb]
      have hmbest : f (minByKey key best rest) ≤ f best :=
        ihmin best (List.mem_cons_self _ _)
      have hbc : f best ≤ f c := not_lt.mp h
      refine ⟨?_, ?_, ?_⟩
      · rcases List.mem_cons.mp ihmem with he | hx
        · rw [he]
          exact List.mem_cons_self _ _
        · exact List.mem_cons_of_mem _ (List.mem_cons_of_mem _ hx)
      · intro x hx
        rcases List.mem_cons.mp hx with rfl | hx
        · exact hmbest
        rcases List.mem_cons.mp hx with rfl | hx
        · exact le_trans hmbest hbc
        · exact ihmin x (List.mem_cons_of_mem _ hx)
      · by_cases hb : f best ≤ f (minByKey key best rest)
        · have h1 : (best :: rest).find?
              (fun x => decide (f x ≤ f (minByKey key best rest))) = some best :=
            List.find?_cons_of_pos _ (by simpa using hb)
          rw [ihfind] at h1
          rw [List.find?_cons_of_pos _ (by simpa using hb)]
          injection h1 with h1
          rw [h1]
        · have hcase : ¬ (f c ≤ f (minByKey key best rest)) := by
            intro hcm
            exact hb (le_trans hbc hcm)
          have h2 : rest.find?
              (fun x => decide (f x ≤ f (minByKey key best rest))) =
                some (minByKey key best rest) := by
            have h3 := ihfind
            rw [List.find?_cons_of_neg _ (by simpa using hb)] at h3
            exact h3
          rw [List.find?_cons_of_neg _ (by simpa using hb)]
          rw [List.find?_cons_of_neg _ (by simpa using hcase)]
          exact h2

lemma favLoop_cons_known (dist : Rat → Rat → Rat → Rat → Rat) (ca cb : Rat)
    {c : URow} {rest : List URow} {best : Option Nat} {bd : Option Rat}
    (hc : knownRow c = true) :
    favLoop dist ca cb (c :: rest) best bd =
      if optLt (some (rowDist dist ca cb c)) bd then
        favLoop dist ca cb rest (some c.uid) (some (rowDist dist ca cb c))
      else favLoop dist ca cb rest best bd := by
  simp only [favLoop]
  rw [pwdKey_known dist ca cb hc]

lemma favLoop_minByKey (dist : Rat → Rat → Rat → Rat → Rat) (ca cb : Rat) :
    ∀ (l : List URow) (r : URow), (∀ x ∈ l, knownRow x = true) →
      knownRow r = true →
      favLoop dist ca cb l (some r.uid) (some (rowDist dist ca cb r)) =
        (some (minByKey (pwdKey dist ca cb) r l).uid,
          some (rowDist dist ca cb (minByKey (pwdKey dist ca cb) r l))) := by
  intro l
  induction l with
  | nil =>
    intro r _ _
    rfl
  | cons c rest ih =>
    intro r hv hr
    have hc := hv c (List.mem_cons_self _ _)
    rw [favLoop_cons_known dist ca cb hc]
    simp only [minByKey]
    rw [pwdKey_known dist ca cb hc, pwdKey_known dist ca cb hr]
    by_cases h : rowDist dist ca cb c < rowDist dist ca cb r
    · have hopt : optLt (some (rowDist dist ca cb c))
          (some (rowDist dist ca cb r)) = true := by
        simp [optLt, h]
      rw [hopt]
      simp only [if_true]
      exact ih c (fun x hx => hv x (List.mem_cons_of_mem _ hx)) hc
    · have hopt : optLt (some (rowDist dist ca cb c))
          (some (rowDist dist ca cb r)) = false := by
        simp [optLt, h]
      rw [hopt]
      simp only [Bool.false_eq_true, if_false]
      exact ih r (fun x hx => hv x (List.mem_cons_of_mem _ hx)) hr

/-- Claim C4: with a valid-coordinate requester and a non-empty online
collector set all of whose coordinates are valid, both dispatchers
select exactly the Python-min collector (minByKey): it is a member of
the candidate list, its distance is minimal, and find? shows it is the
first candidate in iteration order achieving the minimum, so ties
resolve to the first-encountered candidate.  find_available_collector
returns it with its distance, and process_waste_description writes it
into collector_id. -/
theorem C4_nearest_first_tiebreak (dist : Rat → Rat → Rat → Rat → Rat)
    (ca cb : Rat) (uid rid : Nat) (c0 : URow) (cs : List URow)
    (hca : ca ≠ 0) (hcb : cb ≠ 0)
    (hvalid : ∀ x ∈ c0 :: cs, knownRow x = true) :
    minByKey (pwdKey dist ca cb) c0 cs ∈ c0 :: cs ∧
    findAvailableCollector dist (some (some ca, some cb)) (c0 :: cs) =
      FindResult.collector (minByKey (pwdKey dist ca cb) c0 cs).uid
        (rowDist dist ca cb (minByKey (pwdKey dist ca cb) c0 cs)) ∧
    (processWasteDescription dist uid rid (c0 :: cs)
        (some (ca, cb))).request.collector_id =
      some (minByKey (pwdKey dist ca cb) c0 cs).uid ∧
    (∀ x ∈ c0 :: cs,
      rowDist dist ca cb (minByKey (pwdKey dist ca cb) c0 cs) ≤
        rowDist dist ca cb x) ∧
    (c0 :: cs).find?
        (fun x => decide (rowDist dist ca cb x ≤
          rowDist dist ca cb (minByKey (pwdKey dist ca cb) c0 cs))) =
      some (minByKey (pwdKey dist ca cb) c0 cs) := by
  have hk : ∀ x ∈ c0 :: cs, pwdKey dist ca cb x = some (rowDist dist ca cb x) :=
    fun x hx => pwdKey_known dist ca cb (hvalid x hx)
  obtain ⟨hmem, hmin, hfind⟩ :=
    minByKey_spec (pwdKey dist ca cb) (rowDist dist ca cb) cs c0 hk
  refine ⟨hmem, ?_, rfl, hmin, hfind⟩
  have hc0 := hvalid c0 (List.mem_cons_self _ _)
  have hbridge := favLoop_minByKey dist ca cb cs c0
    (fun x hx => hvalid x (List.mem_cons_of_mem _ hx)) hc0
  have hstep : favLoop dist ca cb (c0 :: cs) none none =
      favLoop dist ca cb cs (some c0.uid) (some (rowDist dist ca cb c0)) := by
    rw [favLoop_cons_known dist ca cb hc0]
    rfl
  simp [findAvailableCollector, truthyVal_nonzero hca, truthyVal_nonzero hcb,
    hstep, hbridge]

theorem C4_witness :
    findAvailableCollector sampleDist (some (some 1, some 1))
        [⟨1, some 3, some 4⟩, ⟨2, some 1, some 1⟩, ⟨3, some 1, some 1⟩] =
      FindResult.collector 2 0 ∧
    (processWasteDescription sampleDist 9 5
        [⟨1, some 3, some 4⟩, ⟨2, some 1, some 1⟩, ⟨3, some 1, some 1⟩]
        (some (1, 1))).request.collector_id = some 2 := by
  have h := C4_nearest_first_tiebreak sampleDist 1 1 9 5 ⟨1, some 3, some 4⟩
    [⟨2, some 1, some 1⟩, ⟨3, some 1, some 1⟩] (by decide) (by decide) (by decide)
  constructor
  · rw [h.2.1]
    decide
  · rw [h.2.2.1]
    decide

lemma assignUpd_id (n cid : Nat) (r : PickupRequest) :
    (assignUpd n cid r).id = r.id := by
  unfold assignUpd
  split <;> rfl

lemma completeUpd_id (rid : Nat) (r : PickupRequest) :
    (completeUpd rid r).id = r.id := by
  unfold completeUpd
  split <;> rfl

lemma map_preserves_ids {f : PickupRequest → PickupRequest}
    (hf : ∀ r, (f r).id = r.id) (l : List PickupRequest) :
    (l.map f).map PickupRequest.id = l.map PickupRequest.id := by
  induction l with
  | nil => rfl
  | cons c t ih => simp [hf, ih]

lemma preach_inv {s : PStore} (h : PReach s) :
    (∀ r ∈ s.reqs, r.id < s.nextReqId ∧ reqWellFormed r) ∧
      (s.reqs.map PickupRequest.id).Nodup := by
  induction h with
  | init =>
    constructor
    · intro r hr
      simp at hr
    · simp
  | @step s s' prev st ih =>
    obtain ⟨ihb, ihn⟩ := ih
    cases st with
    | dispatch c found =>
      cases found with
      | none =>
        simp only [applyDispatch]
        constructor
        · intro r hr
          rcases List.mem_append.mp hr with hold | hnew
          · obtain ⟨hb, hw⟩ := ihb r hold
            exact ⟨Nat.lt_succ_of_lt hb, hw⟩
          · rw [List.mem_singleton] at hnew
            subst hnew
            refine ⟨Nat.lt_succ_self _, ?_, ?_⟩
            · intro habs
              simp at habs
            · intro hne
              exact absurd rfl hne
        · rw [List.map_append, List.nodup_append]
          refine ⟨ihn, List.nodup_singleton _, ?_⟩
          intro a ha hb2
          simp only [List.map_cons, List.map_nil, List.mem_singleton] at hb2
          subst hb2
          obtain ⟨r, hr, hrid⟩ := List.mem_map.mp ha
          obtain ⟨hb, _⟩ := ihb r hr
          exact absurd hrid (Nat.ne_of_lt hb)
      | some cid =>
        simp only [applyDispatch]
        constructor
        · intro r hr
          obtain ⟨x, hx, rfl⟩ := List.mem_map.mp hr
          rcases List.mem_append.mp hx with hold | hnew
          · obtain ⟨hb, hw⟩ := ihb x hold
            have hne : x.id ≠ s.nextReqId := Nat.ne_of_lt hb
            have hfx : assignUpd s.nextReqId cid x = x := by
              unfold assignUpd
              rw [if_neg hne]
            rw [hfx]
            exact ⟨Nat.lt_succ_of_lt hb, hw⟩
          · rw [List.mem_singleton] at hnew
            subst hnew
            have hfx : assignUpd s.nextReqId cid ⟨s.nextReqId, c, none, "pending"⟩ =
                ⟨s.nextReqId, c, some cid, "assigned"⟩ := by
              unfold assignUpd
              rw [if_pos rfl]
            rw [hfx]
            refine ⟨Nat.lt_succ_self _, ?_, ?_⟩
            · intro _
              simp
            · intro _
              left
              rfl
        · rw [map_preserves_ids (assignUpd_id s.nextReqId cid),
            List.map_append, List.nodup_append]
          refine ⟨ihn, List.nodup_singleton _, ?_⟩
          intro a ha hb2
          simp only [List.map_cons, List.map_nil, List.mem_singleton] at hb2
          subst hb2
          obtain ⟨r, hr, hrid⟩ := List.mem_map.mp ha
          obtain ⟨hb, _⟩ := ihb r hr
          exact absurd hrid (Nat.ne_of_lt hb)
    | complete rid =>
      simp only [applyComplete]
      constructor
      · intro r hr
        obtain ⟨x, hx, rfl⟩ := List.mem_map.mp hr
        obtain ⟨hb, hw⟩ := ihb x hx
        unfold completeUpd
        by_cases hxid : x.id = rid
        · rw [if_pos hxid]
          refine ⟨hb, ?_, ?_⟩
          · intro habs
            simp at habs
          · intro _
            right
            rfl
        · rw [if_neg hxid]
          exact ⟨hb, hw⟩
      · rw [map_preserves_ids (completeUpd_id rid)]
        exact ihn

/-- Claim C6 (amended): over every reachable pickup_requests state and
every table-writing operation, status assigned implies a non-null
collector_id, a non-null collector_id implies status assigned or
completed, and a completed request never regresses (every successor row
with its id is still completed).  The full claimed iff fails in the
completed-with-null direction: the CLI complete-pickup path can complete
a still-pending request, leaving status completed with collector_id
null (see the counterexample). -/
theorem C6_collector_status_invariant (s s' : PStore) (r : PickupRequest)
    (h : PReach s) (hstep : PStep s s') (hr : r ∈ s.reqs) :
    (r.status = "assigned" → r.collector_id ≠ none) ∧
    (r.collector_id ≠ none → r.status = "assigned" ∨ r.status = "completed") ∧
    (r.status = "completed" → ∀ r' ∈ s'.reqs, r'.id = r.id →
      r'.status = "completed") := by
  obtain ⟨hb, hn⟩ := preach_inv h
  obtain ⟨hrb, hrw⟩ := hb r hr
  refine ⟨hrw.1, hrw.2, ?_⟩
  intro hcomp r' hr' hid
  have hinj := List.inj_on_of_nodup_map hn
  cases hstep with
  | dispatch c found =>
    cases found with
    | none =>
      simp only [applyDispatch] at hr'
      rcases List.mem_append.mp hr' with hold | hnew
      · have heq : r' = r := hinj hold hr hid
        rw [heq]
        exact hcomp
      · rw [List.mem_singleton] at hnew
        subst hnew
        exact absurd hid.symm (Nat.ne_of_lt hrb)
    | some cid =>
      simp only [applyDispatch] at hr'
      obtain ⟨x, hx, rfl⟩ := List.mem_map.mp hr'
      rcases List.mem_append.mp hx with hold | hnew
      · obtain ⟨hxb, _⟩ := hb x hold
        have hne : x.id ≠ s.nextReqId := Nat.ne_of_lt hxb
        have hfx : assignUpd s.nextReqId cid x = x := by
          unfold assignUpd
          rw [if_neg hne]
        rw [hfx] at hid ⊢
        have heq : x = r := hinj hold hr hid
        rw [heq]
        exact hcomp
      · rw [List.mem_singleton] at hnew
        subst hnew
        exfalso
        have hfid : (assignUpd s.nextReqId cid
            ⟨s.nextReqId, c, none, "pending"⟩).id = s.nextReqId := by
          unfold assignUpd
          rw [if_pos rfl]
        rw [hfid] at hid
        exact (Nat.ne_of_lt hrb) hid.symm
  | complete rid =>
    simp only [applyComplete] at hr'
    obtain ⟨x, hx, rfl⟩ := List.mem_map.mp hr'
    have hxid : (completeUpd rid x).id = x.id := completeUpd_id rid x
    rw [hxid] at hid
    have hxr : x = r := hinj hx hr hid
    rw [hxr]
    unfold completeUpd
    by_cases hcase : r.id = rid
    · rw [if_pos hcase]
    · rw [if_neg hcase]
      exact hcomp

/-- Claim C6 (counterexample): create a pickup request with no collector
found (status pending, collector_id null), then complete it through the
CLI complete-pickup path: the reachable result is a request with status
completed and collector_id null, refuting collector_id non-null iff
status in assigned-or-completed. -/
theorem C6_counterexample :
    PReach (applyComplete (applyDispatch ⟨[], 1⟩ 7 none) 1) ∧
    (applyComplete (applyDispatch ⟨[], 1⟩ 7 none) 1).reqs =
      [⟨1, 7, none, "completed"⟩] ∧
    decide (((⟨1, 7, none, "completed"⟩ : PickupRequest).collector_id ≠ none) ↔
        ((⟨1, 7, none, "completed"⟩ : PickupRequest).status = "assigned" ∨
          (⟨1, 7, none, "completed"⟩ : PickupRequest).status = "completed")) =
      false := by
  refine ⟨?_, by decide, by decide⟩
  exact PReach.step (PReach.step PReach.init (PStep.dispatch ⟨[], 1⟩ 7 none))
    (PStep.complete (applyDispatch ⟨[], 1⟩ 7 none) 1)

theorem C6_witness :
    PReach (applyComplete (applyDispatch ⟨[], 1⟩ 7 (some 5)) 1) ∧
    (⟨1, 7, some 5, "completed"⟩ : PickupRequest).status = "completed" := by
  have hreach : PReach (applyComplete (applyDispatch ⟨[], 1⟩ 7 (some 5)) 1) :=
    PReach.step (PReach.step PReach.init (PStep.dispatch ⟨[], 1⟩ 7 (some 5)))
      (PStep.complete (applyDispatch ⟨[], 1⟩ 7 (some 5)) 1)
  have h := C6_collector_status_invariant
    (applyComplete (applyDispatch ⟨[], 1⟩ 7 (some 5)) 1)
    (applyComplete (applyComplete (applyDispatch ⟨[], 1⟩ 7 (some 5)) 1) 1)
    ⟨1, 7, some 5, "completed"⟩ hreach
    (PStep.complete (applyComplete (applyDispatch ⟨[], 1⟩ 7 (some 5)) 1) 1)
    (by decide)
  exact ⟨hreach, h.2.2 rfl ⟨1, 7, some 5, "completed"⟩ (by decide) rfl⟩
